import Mathlib

/-!
Verification development for the girth MML estimation modules
(`mml_full_methods.py`, `mml_methods.py`, `mml_separate_methods.py`).

The estimation functions are embedded shallowly over real arithmetic:

* response matrices are represented by the list of participant response
  columns (`List (List Bool)` for dichotomous data);
* the scipy optimizers (`fminbound`, `brentq`, `fmin_slsqp`) are kept as
  explicit function arguments with their bound/root contracts stated as
  hypotheses where a theorem needs them (the code assigns the optimizer's
  final evaluation point to the parameter arrays; the abstract argument
  models that returned point);
* quadrature (`integrate.fixed_quad` called on a constant closure over
  pre-evaluated arrays) is the weighted sum of the array against fixed
  node weights, so nodes and weights appear as explicit vectors;
* helper functions that live outside the three embedded modules
  (`girth.utils`, `girth.polytomous_utils`) are modelled from the spec
  where a claim depends on them; each such definition carries a doc
  comment saying so.
-/

namespace Girth

/-- One entry of the signed-exponent conversion, `(-1)**unique_sets`
(mml_separate_methods.py lines 69 and 101): a response `b` becomes
`(-1)^b` with `True` read as the exponent 1 and `False` as 0. -/
noncomputable def theSign (b : Bool) : ℝ :=
  (-1 : ℝ) ^ (cond b 1 0 : ℕ)

/-- Elementwise signed-exponent conversion of the deduplicated response
patterns (each pattern is one participant column). -/
noncomputable def kernelSign (patterns : List (List Bool)) : List (List ℝ) :=
  patterns.map (fun col => col.map theSign)

/-- The deduplication step `np.unique(dataset, axis=1)`: the distinct
participant response columns (mml_full_methods.py line 59/151,
mml_methods.py line 70/122). Order of the distinct columns is
irrelevant to every property stated below. -/
def uniquePatterns (cols : List (List Bool)) : List (List Bool) :=
  cols.dedup

/-- The multiplicities returned by `return_counts=True`: for each distinct
column, the number of participants whose column equals it. -/
def patternCounts (cols : List (List Bool)) : List ℕ :=
  cols.dedup.map (fun c => cols.count c)

section Engine

variable {P ι K : Type} [Field K]

/-- One remove → optimize → reinsert step of the inner item loop
(twopl_full lines 168–202, twopl_mml lines 141–171, onepl_full lines
79–110, pcm_mml lines 274–312, grm_mml lines 240–283).  The state is the
pair of the current per-item parameters and the running partial-integral
accumulator (indexed by `ι`, a quadrature node or a pattern × node pair).
Step `k` divides the accumulator by item `k`'s contribution under its
current parameters, lets the optimizer produce item `k`'s new parameters
against the objective built from that background, and multiplies the
item's contribution under the new parameters back in. -/
def passStep (contrib : ℕ → P → ι → K) (obj : ℕ → (ι → K) → P → K)
    (opt : ℕ → (P → K) → P → P)
    (st : (ℕ → P) × (ι → K)) (k : ℕ) : (ℕ → P) × (ι → K) :=
  let background : ι → K := fun x => st.2 x / contrib k (st.1 k) x
  let newP : P := opt k (obj k background) (st.1 k)
  (Function.update st.1 k newP, fun x => background x * contrib k newP x)

/-- The full rebuild performed at the start of every outer iteration:
prior density times the product over all items of the item's likelihood
contribution under its current parameters (twopl_full lines 164–166,
twopl_mml lines 137–139, onepl_full lines 75–77, pcm_mml lines 266–271,
grm_mml lines 236–238). -/
def rebuilt (n : ℕ) (contrib : ℕ → P → ι → K) (prior : ι → K)
    (params : ℕ → P) : ι → K :=
  fun x => prior x * ∏ i in Finset.range n, contrib i (params i) x

/-- The inner loop after processing items `0, …, k-1` (in that fixed
ascending order, each exactly once), started from the freshly rebuilt
accumulator. -/
def innerLoopUpTo (n : ℕ) (contrib : ℕ → P → ι → K)
    (obj : ℕ → (ι → K) → P → K) (opt : ℕ → (P → K) → P → P)
    (prior : ι → K) (params0 : ℕ → P) (k : ℕ) : (ℕ → P) × (ι → K) :=
  (List.range k).foldl (passStep contrib obj opt)
    (params0, rebuilt n contrib prior params0)

/-- One complete inner pass over all `n` items: the body of one outer
iteration. -/
def innerPass (n : ℕ) (contrib : ℕ → P → ι → K)
    (obj : ℕ → (ι → K) → P → K) (opt : ℕ → (P → K) → P → P)
    (prior : ι → K) (params0 : ℕ → P) : (ℕ → P) × (ι → K) :=
  innerLoopUpTo n contrib obj opt prior params0 n

/-- Specification sequence for the inner loop: the parameters after the
first `k` items of a pass have been processed.  Item `k` receives the
optimizer's output for the objective built from the prior times the
product of all other items' contributions — already-updated parameters
for items before `k`, pass-entry parameters for items after `k`
(Gauss–Seidel, not Jacobi). -/
def gsParams (n : ℕ) (contrib : ℕ → P → ι → K)
    (obj : ℕ → (ι → K) → P → K) (opt : ℕ → (P → K) → P → P)
    (prior : ι → K) (params0 : ℕ → P) : ℕ → ℕ → P
  | 0 => params0
  | k + 1 =>
    let prev := gsParams n contrib obj opt prior params0 k
    Function.update prev k
      (opt k (obj k (fun x =>
        prior x * ∏ i in (Finset.range n).erase k, contrib i (prev i) x))
        (prev k))

end Engine

/-- Maximum absolute componentwise change between two parameter vectors
of length `n`: `np.abs(new - old).max()`.  (numpy raises on an empty
vector; the fold's base value 0 is only reached for `n = 0`, which no
estimation call produces.) -/
noncomputable def maxAbsDiff (n : ℕ) (f g : ℕ → ℝ) : ℝ :=
  ((List.range n).map (fun i => |f i - g i|)).foldr max 0

open Classical in
/-- The shared outer iteration shape (twopl_full lines 160–205, twopl_mml
lines 132–174, onepl_full lines 71–113, pcm_mml lines 259–315, grm_mml
lines 229–286): run at most `cap` passes, breaking after the first pass
whose exit test `done old new` holds, and return only the last computed
state — no convergence flag accompanies it. -/
noncomputable def outerLoop {S : Type} (step : S → S) (done : S → S → Prop) :
    ℕ → S → S
  | 0, s => s
  | m + 1, s =>
    let s' := step s
    if done s s' then s' else outerLoop step done m s'

open Classical in
/-- Ghost specification function: the number of passes the outer loop
actually executes. -/
noncomputable def outerCount {S : Type} (step : S → S) (done : S → S → Prop) :
    ℕ → S → ℕ
  | 0, _ => 0
  | m + 1, s =>
    let s' := step s
    if done s s' then 1 else outerCount step done m s' + 1

/-- Modelled from the spec: the single-item factor of
`girth.utils._compute_partial_integral` (the helper is imported by the
embedded modules but its own source is not under src/).  Per the spec's
ModelVariant section the dichotomous likelihood kernel is the logistic
item response function with the signed-exponent flip, matching the
inline kernel of twopl_separate (mml_separate_methods.py lines 109–115):
`1 / (1 + exp(sign * disc * (theta - difficulty)))`. -/
noncomputable def itemContrib (sign disc diff θv : ℝ) : ℝ :=
  1 / (1 + Real.exp (sign * disc * (θv - diff)))

/-- Standard normal density, as written inline in rasch_separate
(mml_separate_methods.py line 34). -/
noncomputable def gauss (θv : ℝ) : ℝ :=
  1 / Real.sqrt (2 * Real.pi) * Real.exp (-θv ^ 2 / 2)

/-- Modelled from the spec: `girth.irt_evaluation` (not under src/), the
logistic item response function giving the probability of an endorsed
response: `1 / (1 + exp(-disc * (theta - difficulty)))`. -/
noncomputable def irt_evaluation (diff disc θv : ℝ) : ℝ :=
  1 / (1 + Real.exp (-disc * (θv - diff)))

/-- The integrand of rasch_separate's quadrature (mml_separate_methods.py
lines 33–36): item response probability times the normal density. -/
noncomputable def raschQuadFunction (diff disc θv : ℝ) : ℝ :=
  irt_evaluation diff disc θv * gauss θv

/-- rasch_separate's model-implied endorsement probability at a trial
difficulty: the fixed-order weighted quadrature sum of the integrand
(nodes `x`, weights `w`; spec section 4.1). -/
noncomputable def raschModelProb (q : ℕ) (x w : ℕ → ℝ) (disc estimate : ℝ) : ℝ :=
  ∑ i in Finset.range q, w i * raschQuadFunction estimate disc (x i)

/-- rasch_separate's per-item root objective (mml_separate_methods.py
lines 45–48): observed endorsement proportion minus the model-implied
probability. -/
noncomputable def raschSepObjective (q : ℕ) (x w : ℕ → ℝ)
    (scalar disc estimate : ℝ) : ℝ :=
  scalar - raschModelProb q x w disc estimate

/-- rasch_separate (mml_separate_methods.py lines 24–52): each item's
difficulty is `brentq(objective, -6, 6)`.  The scipy root finder is an
explicit argument; `scalar k` is item `k`'s observed proportion
`n_yes / (n_yes + n_no)`. -/
noncomputable def rasch_separate (q : ℕ) (x w : ℕ → ℝ) (scalar disc : ℕ → ℝ)
    (brentq : (ℝ → ℝ) → ℝ → ℝ → ℝ) (k : ℕ) : ℝ :=
  brentq (raschSepObjective q x w (scalar k) (disc k)) (-6) 6

/-- The model-implied probability inside `_mml_abstract`
(mml_methods.py lines 22–28): kernel `disc * (estimate - theta)`,
logistic, times the supplied density, weighted-summed over the grid. -/
noncomputable def mmlModelProb (q : ℕ) (x w dens : ℕ → ℝ)
    (disc estimate : ℝ) : ℝ :=
  ∑ i in Finset.range q, w i * (1 / (1 + Real.exp (disc * (estimate - x i))) * dens i)

/-- `_mml_abstract`'s squared-residual objective (mml_methods.py
line 30): `np.square(integral - scalar)`. -/
noncomputable def mmlAbstractObjective (q : ℕ) (x w dens : ℕ → ℝ)
    (scalar disc estimate : ℝ) : ℝ :=
  (mmlModelProb q x w dens disc estimate - scalar) ^ 2

/-- `_mml_abstract` (mml_methods.py lines 12–34): each item's difficulty
is `fminbound(objective, -6, 6)`; the scipy bounded minimizer is an
explicit argument. -/
noncomputable def mml_abstract (q : ℕ) (x w dens : ℕ → ℝ)
    (scalar disc : ℕ → ℝ) (fmb : (ℝ → ℝ) → ℝ → ℝ → ℝ) (k : ℕ) : ℝ :=
  fmb (mmlAbstractObjective q x w dens (scalar k) (disc k)) (-6) 6

/-- The per-item, per-pattern negative log marginal likelihood objective
of the dichotomous inner loops (twopl_full lines 176–189, with the 1PL
variant at onepl_full lines 89–101 obtained by fixing the
discrimination component): minus the counts-weighted sum over patterns
of the log of the node-weighted quadrature sum of the item's trial
contribution times the background accumulator. -/
noncomputable def dichotObjective (nPats nQ : ℕ) (θv w counts : ℕ → ℝ)
    (sign : ℕ → ℕ → ℝ) (k : ℕ) (bg : ℕ × ℕ → ℝ) (p : ℝ × ℝ) : ℝ :=
  -∑ pat in Finset.range nPats, counts pat *
    Real.log (∑ node in Finset.range nQ,
      w node * (itemContrib (sign k pat) p.1 p.2 (θv node) * bg (pat, node)))

/-- The likelihood contribution of a single item at a (pattern, node)
grid cell under trial parameters `p = (discrimination, difficulty)`. -/
noncomputable def twoplContrib (θv : ℕ → ℝ) (sign : ℕ → ℕ → ℝ)
    (k : ℕ) (p : ℝ × ℝ) (v : ℕ × ℕ) : ℝ :=
  itemContrib (sign k v.1) p.1 p.2 (θv v.2)

/-- One outer pass of twopl_full (mml_full_methods.py lines 160–202):
full rebuild of the accumulator seeded with the prior, then the
remove → optimize → reinsert inner loop over the items, each item's
update a call of the derivative-free constrained bivariate optimizer
`slsqp` (objective, initial guess `(discrimination[k], difficulty[k])`,
discrimination bounds, difficulty bounds) with
`bounds=[(0.25, 4), (-4, 4)]` (lines 192–195). -/
noncomputable def twoplStep (nItems nPats nQ : ℕ) (θv w dist counts : ℕ → ℝ)
    (sign : ℕ → ℕ → ℝ)
    (slsqp : ((ℝ × ℝ) → ℝ) → (ℝ × ℝ) → (ℝ × ℝ) → (ℝ × ℝ) → ℝ × ℝ)
    (ps : ℕ → ℝ × ℝ) : ℕ → ℝ × ℝ :=
  (innerPass nItems (twoplContrib θv sign) (dichotObjective nPats nQ θv w counts sign)
    (fun _ f g => slsqp f g (0.25, 4) (-4, 4)) (fun v => dist v.2) ps).1

/-- The outer-loop exit test shared by the 2PL/polytomous estimators
(twopl_full line 204, twopl_mml line 173, pcm_mml line 314, grm_mml
line 285): maximum absolute change of the discrimination vector
strictly below 1e-3. -/
noncomputable def discrimDone (nItems : ℕ) (ps ps' : ℕ → ℝ × ℝ) : Prop :=
  maxAbsDiff nItems (fun i => (ps i).1) (fun i => (ps' i).1) < (1e-3 : ℝ)

/-- twopl_full (mml_full_methods.py lines 127–207) on the conditioned
data: `nItems × nPats` signed patterns with multiplicities `counts`,
quadrature nodes `θv` with weights `w`, prior density `dist` sampled at
the nodes.  Parameters start at discrimination 1, difficulty 0 (lines
157–158); the outer loop runs at most `cap` passes, exits early on the
discrimination test, and returns the bare estimates. -/
noncomputable def twopl_full (nItems nPats nQ cap : ℕ) (θv w dist counts : ℕ → ℝ)
    (sign : ℕ → ℕ → ℝ)
    (slsqp : ((ℝ × ℝ) → ℝ) → (ℝ × ℝ) → (ℝ × ℝ) → (ℝ × ℝ) → ℝ × ℝ) :
    (ℕ → ℝ) × (ℕ → ℝ) :=
  let final := outerLoop (twoplStep nItems nPats nQ θv w dist counts sign slsqp)
    (discrimDone nItems) cap fun _ => ((1 : ℝ), (0 : ℝ));
  (fun i => (final i).1, fun i => (final i).2)

/-- The difficulty loop of onepl_full's `alpha_min_func` (mml_full_methods.py
lines 68–113) at a fixed shared discrimination `a`: the same inner pass
with the difficulty as the only free component, `fminbound(…, -4, 4)` per
item (line 103), difficulties started at 0 (line 66), and the early exit
on the difficulty vector (line 112). -/
noncomputable def onepl_difficulty_loop (nItems nPats nQ cap : ℕ)
    (θv w dist counts : ℕ → ℝ) (sign : ℕ → ℕ → ℝ)
    (fmb : (ℝ → ℝ) → ℝ → ℝ → ℝ) (a : ℝ) : ℕ → ℝ :=
  let contrib := fun k (b : ℝ) (v : ℕ × ℕ) =>
    itemContrib (sign k v.1) a b (θv v.2)
  let obj := fun k (bg : ℕ × ℕ → ℝ) (b : ℝ) =>
    dichotObjective nPats nQ θv w counts sign k bg (a, b)
  let opt := fun (_ : ℕ) (f : ℝ → ℝ) (_ : ℝ) => fmb f (-4) 4
  let prior := fun v : ℕ × ℕ => dist v.2
  let step := fun ds : ℕ → ℝ => (innerPass nItems contrib obj opt prior ds).1
  let done := fun ds ds' : ℕ → ℝ => maxAbsDiff nItems ds ds' < (1e-3 : ℝ)
  outerLoop step done cap fun _ => (0 : ℝ)

/-- The marginal cost evaluated by `alpha_min_func` after its difficulty
loop (mml_full_methods.py lines 115–117); by the accumulator invariant
the final accumulator is the full rebuilt product at the final
difficulties. -/
noncomputable def onepl_cost (nItems nPats nQ cap : ℕ)
    (θv w dist counts : ℕ → ℝ) (sign : ℕ → ℕ → ℝ)
    (fmb : (ℝ → ℝ) → ℝ → ℝ → ℝ) (a : ℝ) : ℝ :=
  let d := onepl_difficulty_loop nItems nPats nQ cap θv w dist counts sign fmb a;
  -∑ pat in Finset.range nPats, counts pat *
    Real.log (∑ node in Finset.range nQ,
      w node * (dist node *
        ∏ i in Finset.range nItems, itemContrib (sign i pat) a (d i) (θv node)))

/-- onepl_full (mml_full_methods.py lines 31–124).  With `alpha = some a`
(the Rasch branch, line 122) the inner machinery runs once at `a` and
the supplied discrimination is returned unchanged; with `alpha = none`
the shared discrimination is `fminbound(alpha_min_func, 0.1, 4)`
(line 120). -/
noncomputable def onepl_full (nItems nPats nQ cap : ℕ)
    (θv w dist counts : ℕ → ℝ) (sign : ℕ → ℕ → ℝ)
    (fmb fmbA : (ℝ → ℝ) → ℝ → ℝ → ℝ) (alpha : Option ℝ) : ℝ × (ℕ → ℝ) :=
  match alpha with
  | some a =>
    (a, onepl_difficulty_loop nItems nPats nQ cap θv w dist counts sign fmb a)
  | none =>
    let a := fmbA (onepl_cost nItems nPats nQ cap θv w dist counts sign fmb) 0.1 4;
    (a, onepl_difficulty_loop nItems nPats nQ cap θv w dist counts sign fmb a)

/-- rasch_full (mml_full_methods.py lines 11–28): exactly
`onepl_full(dataset, alpha=discrimination, options)[1]`. -/
noncomputable def rasch_full (nItems nPats nQ cap : ℕ)
    (θv w dist counts : ℕ → ℝ) (sign : ℕ → ℕ → ℝ)
    (fmb fmbA : (ℝ → ℝ) → ℝ → ℝ → ℝ) (discrimination : ℝ) : ℕ → ℝ :=
  (onepl_full nItems nPats nQ cap θv w dist counts sign fmb fmbA
    (some discrimination)).2

/-- The cost function `min_func` of onepl_mml (mml_methods.py lines
81–93): set every discrimination to the trial estimate, recompute all
difficulties through `_mml_abstract`, and return the negative log
marginal likelihood of the resulting parameters. -/
noncomputable def onepl_mml_cost (nItems nPats nQ : ℕ)
    (θv w dens counts : ℕ → ℝ) (sign : ℕ → ℕ → ℝ) (scalar : ℕ → ℝ)
    (fmb : (ℝ → ℝ) → ℝ → ℝ → ℝ) (estimate : ℝ) : ℝ :=
  let d := mml_abstract nQ θv w dens scalar (fun _ => estimate) fmb;
  -∑ pat in Finset.range nPats, counts pat *
    Real.log (∑ node in Finset.range nQ,
      w node * (dens node *
        ∏ i in Finset.range nItems, itemContrib (sign i pat) estimate (d i) (θv node)))

/-- onepl_mml (mml_methods.py lines 52–101): with `alpha = some a` (the
Rasch branch, line 99) `min_func(a)` runs once, so the difficulties are
the `_mml_abstract` solution at `a` and the supplied `a` is returned
unchanged; with `alpha = none` the discrimination is
`fminbound(min_func, 0.25, 10)` (line 97). -/
noncomputable def onepl_mml (nItems nPats nQ : ℕ)
    (θv w dens counts : ℕ → ℝ) (sign : ℕ → ℕ → ℝ) (scalar : ℕ → ℝ)
    (fmb fmbA : (ℝ → ℝ) → ℝ → ℝ → ℝ) (alpha : Option ℝ) : ℝ × (ℕ → ℝ) :=
  match alpha with
  | some a => (a, mml_abstract nQ θv w dens scalar (fun _ => a) fmb)
  | none =>
    let a := fmbA (onepl_mml_cost nItems nPats nQ θv w dens counts sign scalar fmb)
      0.25 10;
    (a, mml_abstract nQ θv w dens scalar (fun _ => a) fmb)

/-- rasch_mml (mml_methods.py lines 37–49): exactly
`onepl_mml(dataset, alpha=discrimination)[1]`. -/
noncomputable def rasch_mml (nItems nPats nQ : ℕ)
    (θv w dens counts : ℕ → ℝ) (sign : ℕ → ℕ → ℝ) (scalar : ℕ → ℝ)
    (fmb fmbA : (ℝ → ℝ) → ℝ → ℝ → ℝ) (discrimination : ℝ) : ℕ → ℝ :=
  (onepl_mml nItems nPats nQ θv w dens counts sign scalar fmb fmbA
    (some discrimination)).2

/-- Modelled from the spec: the contract of
`girth.polytomous_utils._solve_integral_equations` (not under src/).
Per the spec's ItemParameterSolver section the thresholds are obtained
by solving the category-probability-matching integral equations
directly: at discrimination `a`, threshold `j` makes the node-weighted
quadrature sum of the logistic boundary probability times the density
equal the item's observed category ratio `ratios j`. -/
def MatchesCategoryProbs (q : ℕ) (x w dens : ℕ → ℝ) (ratios : List ℝ)
    (a : ℝ) (ts : List ℝ) : Prop :=
  ts.length = ratios.length ∧
  ∀ j, j < ratios.length →
    (∑ i in Finset.range q,
      w i * (1 / (1 + Real.exp (-a * (x i - ts.getD j 0))) * dens i)) = ratios.getD j 0

/-- The per-item solve stage shared by grm_mml (mml_methods.py lines
254–276) and grm_separate (mml_separate_methods.py lines 237–258): a
bounded univariate search `fminbound(_local_min_func, 0.2, 5.0)` over
the single discrimination value, where `_local_min_func` first computes
the item's thresholds from the trial discrimination through
`_solve_integral_equations` and only then evaluates the marginal
objective `obj` at that (discrimination, thresholds) pair.  The item's
stored state after the stage is the searched discrimination together
with the thresholds the solver derives from it. -/
noncomputable def grmItemStage (solveIE : ℝ → List ℝ) (obj : ℝ → List ℝ → ℝ)
    (fmb : (ℝ → ℝ) → ℝ → ℝ → ℝ) : ℝ × List ℝ :=
  let a := fmb (fun estimate => obj estimate (solveIE estimate)) 0.2 5;
  (a, solveIE a)

/-- The per-item difficulty slice `betas[start_ndx+1:end_ndx]` of the
linearized graded-response parameter vector (mml_methods.py lines
243–245 and 292–293): `start_ndx` is the sum of the category counts of
the previous items, and the slice skips the fixed reference slot. -/
def itemSlice (flat : List ℝ) (counts : List ℕ) (i : ℕ) : List ℝ :=
  (flat.drop ((counts.take i).sum + 1)).take (counts.getD i 0 - 1)

/-- One output row of the padded threshold array: the item's estimated
thresholds in the leading slots, the trailing slots keeping the
not-applicable marker (`np.nan`, modelled as `none`). -/
def padRow (width : ℕ) (row : List ℝ) : List (Option ℝ) :=
  row.map some ++ List.replicate (width - row.length) none

/-- grm_mml's output assembly (mml_methods.py lines 291–294): an
`n_items × (item_counts.max() - 1)` array filled with the marker, row
`i`'s first `item_counts[i] - 1` slots overwritten with item `i`'s
slice of the linearized difficulty vector. -/
def grmOutputBetas (flat : List ℝ) (counts : List ℕ) : List (List (Option ℝ)) :=
  (List.range counts.length).map fun i =>
    padRow (counts.foldr max 0 - 1) (itemSlice flat counts i)

/-- pcm_mml's output assembly (mml_full_methods.py lines 243, 249–251,
306 and 319): the `n_items × item_counts.max()` parameter array starts
as all markers, row `i`'s slots `1 … item_counts[i]-1` are the item's
estimated values (`rows i`, of length `item_counts[i] - 1`), and the
returned array drops column 0 — so each returned row is the estimated
values followed by markers. -/
def pcmOutputBetas (rows : List (List ℝ)) (counts : List ℕ) : List (List (Option ℝ)) :=
  (List.range counts.length).map fun i =>
    padRow (counts.foldr max 0 - 1) ((rows.getD i []).take (counts.getD i 0 - 1))

/-- One estimation call inside a session with ambient state `w`: the
embedded modules define no module-level mutable state — every parameter
array and accumulator is allocated inside the call (e.g. twopl_full
lines 157–158, 164) — so a call computes its output from its own
arguments alone and leaves the ambient state untouched. -/
def sessionCall {I O W : Type} (f : I → O) (w : W) (i : I) : O × W :=
  (f i, w)

/-- Sequentially running a list of estimation calls through the session,
threading the ambient state. -/
def sessionRun {I O W : Type} (f : I → O) : List I → W → List O × W
  | [], w => ([], w)
  | i :: is, w =>
    let first := sessionCall f w i
    let rest := sessionRun f is first.2;
    (first.1 :: rest.1, rest.2)

/-- twopl_full applied to a raw dataset (given as the list of participant
response columns): deduplicate the columns with multiplicities
(mml_full_methods.py line 151), convert the patterns to signed exponents
(line 152), and run the estimation core. -/
noncomputable def twopl_full_dataset (cols : List (List Bool)) (nQ cap : ℕ)
    (θv w dist : ℕ → ℝ)
    (slsqp : ((ℝ × ℝ) → ℝ) → (ℝ × ℝ) → (ℝ × ℝ) → (ℝ × ℝ) → ℝ × ℝ) :
    (ℕ → ℝ) × (ℕ → ℝ) :=
  let pats := uniquePatterns cols
  let cnts := patternCounts cols
  let sign := fun i pat => theSign ((pats.getD pat []).getD i false)
  twopl_full (cols.headD []).length pats.length nQ cap θv w dist
    (fun p => ((cnts.getD p 0 : ℕ) : ℝ)) sign slsqp

/-- twopl_mml's per-item update (mml_methods.py lines 150–169): a
univariate `fminbound(…, 0.25, 6)` over the item's discrimination whose
objective first recomputes the item's difficulty from the trial
discrimination through `_mml_abstract`; the item state after the search
is the searched discrimination together with its `_mml_abstract`
difficulty (the code's last objective evaluation). -/
noncomputable def twoplMmlOpt (nQ : ℕ) (θv w dens : ℕ → ℝ) (scalar : ℕ → ℝ)
    (fmb : (ℝ → ℝ) → ℝ → ℝ → ℝ) (k : ℕ) (f : (ℝ × ℝ) → ℝ) (_ : ℝ × ℝ) : ℝ × ℝ :=
  let a := fmb (fun est =>
    f (est, mml_abstract nQ θv w dens scalar (fun _ => est) fmb k)) 0.25 6;
  (a, mml_abstract nQ θv w dens scalar (fun _ => a) fmb k)

/-- One outer pass of twopl_mml (mml_methods.py lines 132–171): the same
rebuild / remove → optimize → reinsert inner pass as twopl_full, with
`twoplMmlOpt` as the per-item update. -/
noncomputable def twoplMmlStep (nItems nPats nQ : ℕ) (θv w dens counts : ℕ → ℝ)
    (sign : ℕ → ℕ → ℝ) (scalar : ℕ → ℝ) (fmb : (ℝ → ℝ) → ℝ → ℝ → ℝ)
    (ps : ℕ → ℝ × ℝ) : ℕ → ℝ × ℝ :=
  (innerPass nItems (twoplContrib θv sign) (dichotObjective nPats nQ θv w counts sign)
    (twoplMmlOpt nQ θv w dens scalar fmb) (fun v => dens v.2) ps).1

/-- twopl_mml (mml_methods.py lines 104–176): parameters started at
discrimination 1 and difficulty 0 (lines 129–130), at most `cap` outer
passes with the strict discrimination exit test (line 173), the bare
estimates returned. -/
noncomputable def twopl_mml (nItems nPats nQ cap : ℕ) (θv w dens counts : ℕ → ℝ)
    (sign : ℕ → ℕ → ℝ) (scalar : ℕ → ℝ) (fmb : (ℝ → ℝ) → ℝ → ℝ → ℝ) :
    (ℕ → ℝ) × (ℕ → ℝ) :=
  let final := outerLoop (twoplMmlStep nItems nPats nQ θv w dens counts sign scalar fmb)
    (discrimDone nItems) cap fun _ => ((1 : ℝ), (0 : ℝ));
  (fun i => (final i).1, fun i => (final i).2)

/-!
### Theorems

Helper lemmas come first; each claim's theorem carries the claim id in
its doc comment.
-/

theorem logistic_flip (t : ℝ) :
    1 / (1 + Real.exp t) = 1 - 1 / (1 + Real.exp (-t)) := by
  have h1 : (0 : ℝ) < 1 + Real.exp t := by positivity
  have h2 : (0 : ℝ) < 1 + Real.exp (-t) := by positivity
  have hept : Real.exp t ≠ 0 := (Real.exp_pos t).ne'
  rw [Real.exp_neg, inv_eq_one_div]
  field_simp
  ring

theorem count_beq_agree (c : List Bool) (cols : List (List Bool)) :
    cols.count c = @List.count (List Bool) instBEqOfDecidableEq c cols := by
  induction cols with
  | nil => rfl
  | cons d ds ih =>
    by_cases h : d = c
    · simp [List.count_cons, ih, h]
    · simp [List.count_cons, ih, h]

/-- C3: for every dichotomous response matrix, the deduplication step
returns pattern multiplicities whose sum is exactly the participant
count (the number of response columns). -/
theorem pattern_counts_sum_to_participants (cols : List (List Bool)) :
    (patternCounts cols).sum = cols.length := by
  unfold patternCounts
  rw [show (List.map (fun c => cols.count c) cols.dedup)
      = List.map (fun c => @List.count (List Bool) instBEqOfDecidableEq c cols) cols.dedup
    from List.map_congr_left fun c _ => count_beq_agree c cols]
  exact List.sum_map_count_dedup_eq_length cols

/-- C4 counterexample: the claim's convention maps an endorsed (True/1)
entry to +1, but the sign array `(-1)**unique_sets` computed in
onepl_separate and twopl_separate maps the endorsed entry of the
one-item, one-participant matrix [[True]] to −1, not +1. -/
theorem kernel_sign_not_plus_one_for_yes :
    kernelSign [[true]] = [[-1]] ∧ kernelSign [[true]] ≠ [[1]] := by
  refine ⟨by simp [kernelSign, theSign], fun h => ?_⟩
  have h1 : (-1 : ℝ) = 1 := by
    have := congrArg (fun l => (l.headD []).headD 0) h
    simpa [kernelSign, theSign] using this
  norm_num at h1

/-- C4 (amended): the signed-exponent conversion maps each endorsed
(True/1) entry to −1 and each non-endorsed entry to +1, so that the
single logistic kernel covers both outcomes via sign flip: at the
endorsed sign it evaluates to the endorsement probability, at the
non-endorsed sign to its complement.  The sign array of onepl_separate
and twopl_separate obeys this convention entrywise for every binary
matrix. -/
theorem kernel_sign_convention_amended (disc diff θv : ℝ) :
    theSign true = -1 ∧ theSign false = 1 ∧
    (∀ cols : List (List Bool),
      kernelSign cols = cols.map (List.map fun b => if b then (-1 : ℝ) else 1)) ∧
    itemContrib (theSign true) disc diff θv = irt_evaluation diff disc θv ∧
    itemContrib (theSign false) disc diff θv = 1 - irt_evaluation diff disc θv := by
  have htrue : theSign true = -1 := by simp [theSign]
  have hfalse : theSign false = 1 := by simp [theSign]
  refine ⟨htrue, hfalse, ?_, ?_, ?_⟩
  · intro cols
    unfold kernelSign
    refine List.map_congr_left fun col _ => List.map_congr_left fun b _ => ?_
    cases b <;> simp [theSign]
  · rw [htrue]
    unfold itemContrib irt_evaluation
    ring_nf
  · rw [hfalse]
    unfold itemContrib irt_evaluation
    rw [one_mul]
    have := logistic_flip (disc * (θv - diff))
    rw [this]
    ring_nf

theorem innerLoopUpTo_succ {P ι K : Type} [Field K] (n : ℕ)
    (contrib : ℕ → P → ι → K) (obj : ℕ → (ι → K) → P → K)
    (opt : ℕ → (P → K) → P → P) (prior : ι → K) (params0 : ℕ → P) (k : ℕ) :
    innerLoopUpTo n contrib obj opt prior params0 (k + 1)
      = passStep contrib obj opt (innerLoopUpTo n contrib obj opt prior params0 k) k := by
  unfold innerLoopUpTo
  rw [List.range_succ, List.foldl_append, List.foldl_cons, List.foldl_nil]

theorem innerLoop_spec {P ι K : Type} [Field K] (n : ℕ)
    (contrib : ℕ → P → ι → K) (obj : ℕ → (ι → K) → P → K)
    (opt : ℕ → (P → K) → P → P) (prior : ι → K) (params0 : ℕ → P)
    (hc : ∀ i p x, contrib i p x ≠ 0) :
    ∀ k, k ≤ n →
      innerLoopUpTo n contrib obj opt prior params0 k
        = (gsParams n contrib obj opt prior params0 k,
           rebuilt n contrib prior (gsParams n contrib obj opt prior params0 k))
      ∧ (∀ j, k ≤ j → gsParams n contrib obj opt prior params0 k j = params0 j) := by
  intro k
  induction k with
  | zero =>
    intro _
    exact ⟨rfl, fun j _ => rfl⟩
  | succ k ih =>
    intro hk1
    have hkn : k < n := hk1
    obtain ⟨hstate, hfix⟩ := ih (Nat.le_of_lt hkn)
    have hmem : k ∈ Finset.range n := Finset.mem_range.mpr hkn
    set gsP := gsParams n contrib obj opt prior params0 k with hgsP
    have hbg : (fun x => rebuilt n contrib prior gsP x / contrib k (gsP k) x)
        = fun x => prior x * ∏ i in (Finset.range n).erase k, contrib i (gsP i) x := by
      funext x
      have hck : contrib k (gsP k) x ≠ 0 := hc _ _ _
      unfold rebuilt
      rw [← Finset.mul_prod_erase _ _ hmem]
      field_simp
      ring
    have hbgx : ∀ y, rebuilt n contrib prior gsP y / contrib k (gsP k) y
        = prior y * ∏ i in (Finset.range n).erase k, contrib i (gsP i) y :=
      fun y => congrFun hbg y
    have hgnext : gsParams n contrib obj opt prior params0 (k + 1)
        = Function.update gsP k
            (opt k (obj k fun x =>
              prior x * ∏ i in (Finset.range n).erase k, contrib i (gsP i) x)
              (gsP k)) := rfl
    set nP := opt k (obj k fun x =>
      prior x * ∏ i in (Finset.range n).erase k, contrib i (gsP i) x) (gsP k) with hnP
    have hnext : innerLoopUpTo n contrib obj opt prior params0 (k + 1)
        = (gsParams n contrib obj opt prior params0 (k + 1),
           rebuilt n contrib prior (gsParams n contrib obj opt prior params0 (k + 1))) := by
      rw [innerLoopUpTo_succ, hstate]
      simp only [passStep]
      rw [hbg, hgnext]
      refine Prod.ext rfl ?_
      show (fun x => rebuilt n contrib prior gsP x / contrib k (gsP k) x
          * contrib k nP x)
        = rebuilt n contrib prior (Function.update gsP k nP)
      funext x
      rw [hbgx]
      unfold rebuilt
      rw [← Finset.mul_prod_erase _ _ hmem, Function.update_same]
      have herase : ∏ i in (Finset.range n).erase k,
          contrib i (Function.update gsP k nP i) x
          = ∏ i in (Finset.range n).erase k, contrib i (gsP i) x :=
        Finset.prod_congr rfl fun i hi => by
          rw [Function.update_noteq (Finset.ne_of_mem_erase hi)]
      rw [herase]
      ring
    refine ⟨hnext, fun j hj => ?_⟩
    have hjk : j ≠ k := by omega
    rw [hgnext]
    rw [Function.update_noteq hjk]
    exact hfix j (by omega)

theorem innerLoop_param_cases {P ι K : Type} [Field K] (n : ℕ)
    (contrib : ℕ → P → ι → K) (obj : ℕ → (ι → K) → P → K)
    (opt : ℕ → (P → K) → P → P) (prior : ι → K) (params0 : ℕ → P) :
    ∀ k i, (innerLoopUpTo n contrib obj opt prior params0 k).1 i = params0 i
      ∨ ∃ f g, (innerLoopUpTo n contrib obj opt prior params0 k).1 i = opt i f g := by
  intro k
  induction k with
  | zero => intro i; left; rfl
  | succ k ih =>
    intro i
    rw [innerLoopUpTo_succ]
    simp only [passStep]
    by_cases h : i = k
    · subst h
      right
      exact ⟨_, _, Function.update_same _ _ _⟩
    · rw [Function.update_noteq h]
      exact ih i

/-- C1: in the estimation functions with an outer/inner loop (twopl_full,
pcm_mml, twopl_mml, grm_mml, onepl_full's inner loop — all of which are
instances of `innerLoopUpTo`/`innerPass` inside `outerLoop`), the
partial-integral accumulator satisfies the central invariant.  At pass
start it is the prior times the product over all items of the item's
contribution at its pass-entry parameters (conjunct 1); after the first
`k` items the accumulator is again the prior times the full product at
the current parameters (conjuncts 2–3); items `≥ k` still hold their
pass-entry parameters (conjunct 4); item `k`'s update is the optimizer's
output against the objective built from the prior times the product over
all *other* items — updated parameters for items before `k`, pass-entry
parameters after `k`: Gauss–Seidel, not Jacobi (conjunct 5); and the
full pass processes the items `0, …, n-1` exactly once each, in fixed
ascending order (conjunct 6). -/
theorem inner_loop_partial_integral_gauss_seidel {P ι K : Type} [Field K]
    (n : ℕ) (contrib : ℕ → P → ι → K) (obj : ℕ → (ι → K) → P → K)
    (opt : ℕ → (P → K) → P → P) (prior : ι → K) (params0 : ℕ → P)
    (hc : ∀ i p x, contrib i p x ≠ 0) (k : ℕ) (hk : k < n) :
    innerLoopUpTo n contrib obj opt prior params0 0
      = (params0, rebuilt n contrib prior params0)
    ∧ (innerLoopUpTo n contrib obj opt prior params0 k).1
        = gsParams n contrib obj opt prior params0 k
    ∧ (innerLoopUpTo n contrib obj opt prior params0 k).2
        = rebuilt n contrib prior (gsParams n contrib obj opt prior params0 k)
    ∧ (∀ j, k ≤ j → gsParams n contrib obj opt prior params0 k j = params0 j)
    ∧ gsParams n contrib obj opt prior params0 (k + 1) k
        = opt k (obj k fun x => prior x * ∏ i in (Finset.range n).erase k,
            contrib i (gsParams n contrib obj opt prior params0 k i) x)
            (params0 k)
    ∧ innerPass n contrib obj opt prior params0
        = innerLoopUpTo n contrib obj opt prior params0 n := by
  obtain ⟨hstate, hfix⟩ :=
    innerLoop_spec n contrib obj opt prior params0 hc k (le_of_lt hk)
  have hg : gsParams n contrib obj opt prior params0 (k + 1)
      = Function.update (gsParams n contrib obj opt prior params0 k) k
          (opt k (obj k fun x => prior x * ∏ i in (Finset.range n).erase k,
              contrib i (gsParams n contrib obj opt prior params0 k i) x)
            (gsParams n contrib obj opt prior params0 k k)) := rfl
  refine ⟨rfl, by rw [hstate], by rw [hstate], hfix, ?_, rfl⟩
  rw [hg, Function.update_same, hfix k le_rfl]

/-- Witness for C1: the logistic contribution of the program's kernel at
concrete data (two items processed up to item 1); the nonzero-contribution
hypothesis holds because the logistic kernel is strictly positive. -/
theorem inner_loop_partial_integral_gauss_seidel_witness :
    (∀ (i : ℕ) (p : ℝ) (x : Unit),
      (fun (_ : ℕ) (b : ℝ) (_ : Unit) => itemContrib 1 1 b 0) i p x ≠ 0)
    ∧ (1 : ℕ) < 2
    ∧ (innerLoopUpTo 2 (fun (_ : ℕ) (b : ℝ) (_ : Unit) => itemContrib 1 1 b 0)
        (fun _ _ _ => (0 : ℝ)) (fun _ _ b => b) (fun _ => (1 : ℝ)) (fun _ => (0 : ℝ)) 0
        = ((fun _ => (0 : ℝ)),
           rebuilt 2 (fun (_ : ℕ) (b : ℝ) (_ : Unit) => itemContrib 1 1 b 0)
             (fun _ => (1 : ℝ)) (fun _ => (0 : ℝ)))
      ∧ (innerLoopUpTo 2 (fun (_ : ℕ) (b : ℝ) (_ : Unit) => itemContrib 1 1 b 0)
          (fun _ _ _ => (0 : ℝ)) (fun _ _ b => b) (fun _ => (1 : ℝ)) (fun _ => (0 : ℝ)) 1).1
          = gsParams 2 (fun (_ : ℕ) (b : ℝ) (_ : Unit) => itemContrib 1 1 b 0)
              (fun _ _ _ => (0 : ℝ)) (fun _ _ b => b) (fun _ => (1 : ℝ)) (fun _ => (0 : ℝ)) 1
      ∧ (innerLoopUpTo 2 (fun (_ : ℕ) (b : ℝ) (_ : Unit) => itemContrib 1 1 b 0)
          (fun _ _ _ => (0 : ℝ)) (fun _ _ b => b) (fun _ => (1 : ℝ)) (fun _ => (0 : ℝ)) 1).2
          = rebuilt 2 (fun (_ : ℕ) (b : ℝ) (_ : Unit) => itemContrib 1 1 b 0)
              (fun _ => (1 : ℝ))
              (gsParams 2 (fun (_ : ℕ) (b : ℝ) (_ : Unit) => itemContrib 1 1 b 0)
                (fun _ _ _ => (0 : ℝ)) (fun _ _ b => b) (fun _ => (1 : ℝ))
                (fun _ => (0 : ℝ)) 1)
      ∧ (∀ j, 1 ≤ j →
          gsParams 2 (fun (_ : ℕ) (b : ℝ) (_ : Unit) => itemContrib 1 1 b 0)
            (fun _ _ _ => (0 : ℝ)) (fun _ _ b => b) (fun _ => (1 : ℝ))
            (fun _ => (0 : ℝ)) 1 j = 0)
      ∧ gsParams 2 (fun (_ : ℕ) (b : ℝ) (_ : Unit) => itemContrib 1 1 b 0)
          (fun _ _ _ => (0 : ℝ)) (fun _ _ b => b) (fun _ => (1 : ℝ))
          (fun _ => (0 : ℝ)) 2 1
          = (fun _ _ b => b : ℕ → (ℝ → ℝ) → ℝ → ℝ) 1
              ((fun _ _ _ => (0 : ℝ)) 1 fun _x : Unit =>
                1 * ∏ i in (Finset.range 2).erase 1,
                  itemContrib 1 1
                    (gsParams 2 (fun (_ : ℕ) (b : ℝ) (_ : Unit) => itemContrib 1 1 b 0)
                      (fun _ _ _ => (0 : ℝ)) (fun _ _ b => b) (fun _ => (1 : ℝ))
                      (fun _ => (0 : ℝ)) 1 i) 0)
              0
      ∧ innerPass 2 (fun (_ : ℕ) (b : ℝ) (_ : Unit) => itemContrib 1 1 b 0)
          (fun _ _ _ => (0 : ℝ)) (fun _ _ b => b) (fun _ => (1 : ℝ)) (fun _ => (0 : ℝ))
          = innerLoopUpTo 2 (fun (_ : ℕ) (b : ℝ) (_ : Unit) => itemContrib 1 1 b 0)
              (fun _ _ _ => (0 : ℝ)) (fun _ _ b => b) (fun _ => (1 : ℝ))
              (fun _ => (0 : ℝ)) 2) := by
  have hc : ∀ (i : ℕ) (p : ℝ) (x : Unit),
      (fun (_ : ℕ) (b : ℝ) (_ : Unit) => itemContrib 1 1 b 0) i p x ≠ 0 := by
    intro i p x
    unfold itemContrib
    positivity
  exact ⟨hc, by norm_num,
    inner_loop_partial_integral_gauss_seidel 2 _ _ _ _ _ hc 1 (by norm_num)⟩

theorem outerLoop_spec {S : Type} (step : S → S) (done : S → S → Prop) :
    ∀ (cap : ℕ) (s0 : S),
      outerCount step done cap s0 ≤ cap
      ∧ outerLoop step done cap s0 = step^[outerCount step done cap s0] s0
      ∧ (∀ j, j + 1 < outerCount step done cap s0 →
          ¬done (step^[j] s0) (step^[j + 1] s0))
      ∧ (outerCount step done cap s0 < cap →
          done (step^[outerCount step done cap s0 - 1] s0)
            (step^[outerCount step done cap s0] s0))
      ∧ (0 < cap → 0 < outerCount step done cap s0) := by
  intro cap
  induction cap with
  | zero =>
    intro s0
    have h0 : outerCount step done 0 s0 = 0 := rfl
    refine ⟨le_refl 0, rfl, ?_, ?_, ?_⟩
    · intro j hj
      omega
    · intro hlt
      omega
    · intro hpos
      omega
  | succ m ih =>
    intro s0
    by_cases h : done s0 (step s0)
    · have hc1 : outerCount step done (m + 1) s0 = 1 := by
        simp [outerCount, h]
      have hl1 : outerLoop step done (m + 1) s0 = step s0 := by
        simp [outerLoop, h]
      rw [hc1, hl1]
      refine ⟨by omega, by simp, ?_, ?_, by omega⟩
      · intro j hj
        omega
      · intro _
        simpa using h
    · obtain ⟨ih1, ih2, ih3, ih4, ih5⟩ := ih (step s0)
      have hc1 : outerCount step done (m + 1) s0
          = outerCount step done m (step s0) + 1 := by
        simp [outerCount, h]
      have hl1 : outerLoop step done (m + 1) s0 = outerLoop step done m (step s0) := by
        simp [outerLoop, h]
      rw [hc1, hl1]
      refine ⟨by omega, ?_, ?_, ?_, by omega⟩
      · rw [ih2]
        exact (Function.iterate_succ_apply step _ s0).symm
      · intro j hj
        match j with
        | 0 => simpa using h
        | j + 1 =>
          have hj' := ih3 j (by omega)
          rw [Function.iterate_succ_apply step (j + 1) s0,
            Function.iterate_succ_apply step j s0] at *
          exact hj'
      · intro hlt
        have hclt : outerCount step done m (step s0) < m := by omega
        have hcpos : 0 < outerCount step done m (step s0) := ih5 (by omega)
        have hd := ih4 hclt
        have e1 : step^[outerCount step done m (step s0) - 1] (step s0)
            = step^[outerCount step done m (step s0)] s0 := by
          rw [← Function.iterate_succ_apply]
          congr 1
          omega
        have e2 : step^[outerCount step done m (step s0)] (step s0)
            = step^[outerCount step done m (step s0) + 1] s0 :=
          (Function.iterate_succ_apply step _ s0).symm
        rw [e1, e2] at hd
        simpa using hd

theorem outerLoop_invariant {S : Type} (step : S → S) (done : S → S → Prop)
    (Q : S → Prop) (hstep : ∀ s, Q s → Q (step s)) :
    ∀ (cap : ℕ) (s0 : S), Q s0 → Q (outerLoop step done cap s0) := by
  intro cap
  induction cap with
  | zero =>
    intro s0 h0
    simpa [outerLoop] using h0
  | succ m ih =>
    intro s0 h0
    by_cases h : done s0 (step s0)
    · simpa [outerLoop, h] using hstep s0 h0
    · simpa [outerLoop, h] using ih (step s0) (hstep s0 h0)

/-- C2: each iterative estimator's outer loop (twopl_full, pcm_mml,
twopl_mml, grm_mml, and onepl_full's inner difficulty loop — all
instances of `outerLoop`) executes at most the configured cap of passes
(conjunct 1); the value returned is nothing but the parameters after the
executed passes — the same form whether or not tolerance was met, with
no convergence flag (conjunct 2, and conjuncts 6–8 for twopl_full and
twopl_mml); no pass before the last had a maximum absolute primary-parameter
change strictly below 1e-3 (conjunct 3); if the loop stopped before the
cap, the last pass did (conjunct 4); and when the cap is positive at
least one pass runs, since the exit test follows the pass (conjunct 5).
The primary parameter is the first (discrimination) component for
twopl_full (`discrimDone`), and `onepl_difficulty_loop` applies
`outerLoop` to the difficulty test `maxAbsDiff nI · · < 1e-3` directly. -/
theorem outer_loop_iteration_cap_and_tolerance_exit {S : Type}
    (step : S → S) (prim : S → ℕ → ℝ) (nI cap : ℕ) (s0 : S) :
    outerCount step (fun s s' => maxAbsDiff nI (prim s) (prim s') < (1e-3 : ℝ)) cap s0
      ≤ cap
    ∧ outerLoop step (fun s s' => maxAbsDiff nI (prim s) (prim s') < (1e-3 : ℝ)) cap s0
        = step^[outerCount step
            (fun s s' => maxAbsDiff nI (prim s) (prim s') < (1e-3 : ℝ)) cap s0] s0
    ∧ (∀ j, j + 1 < outerCount step
          (fun s s' => maxAbsDiff nI (prim s) (prim s') < (1e-3 : ℝ)) cap s0 →
        ¬maxAbsDiff nI (prim (step^[j] s0)) (prim (step^[j + 1] s0)) < (1e-3 : ℝ))
    ∧ (outerCount step (fun s s' => maxAbsDiff nI (prim s) (prim s') < (1e-3 : ℝ)) cap s0
          < cap →
        maxAbsDiff nI
          (prim (step^[outerCount step
            (fun s s' => maxAbsDiff nI (prim s) (prim s') < (1e-3 : ℝ)) cap s0 - 1] s0))
          (prim (step^[outerCount step
            (fun s s' => maxAbsDiff nI (prim s) (prim s') < (1e-3 : ℝ)) cap s0] s0))
          < (1e-3 : ℝ))
    ∧ (0 < cap → 0 < outerCount step
        (fun s s' => maxAbsDiff nI (prim s) (prim s') < (1e-3 : ℝ)) cap s0)
    ∧ (∀ (nPats nQ : ℕ) (θv w dist counts : ℕ → ℝ) (sign : ℕ → ℕ → ℝ)
        (slsqp : ((ℝ × ℝ) → ℝ) → (ℝ × ℝ) → (ℝ × ℝ) → (ℝ × ℝ) → ℝ × ℝ),
        twopl_full nI nPats nQ cap θv w dist counts sign slsqp
          = (fun i => ((outerLoop (twoplStep nI nPats nQ θv w dist counts sign slsqp)
              (discrimDone nI) cap fun _ => ((1 : ℝ), (0 : ℝ))) i).1,
             fun i => ((outerLoop (twoplStep nI nPats nQ θv w dist counts sign slsqp)
              (discrimDone nI) cap fun _ => ((1 : ℝ), (0 : ℝ))) i).2))
    ∧ (∀ (nPats nQ : ℕ) (θv w dens counts : ℕ → ℝ) (sign : ℕ → ℕ → ℝ)
        (scalar : ℕ → ℝ) (fmb : (ℝ → ℝ) → ℝ → ℝ → ℝ),
        twopl_mml nI nPats nQ cap θv w dens counts sign scalar fmb
          = (fun i => ((outerLoop
              (twoplMmlStep nI nPats nQ θv w dens counts sign scalar fmb)
              (discrimDone nI) cap fun _ => ((1 : ℝ), (0 : ℝ))) i).1,
             fun i => ((outerLoop
              (twoplMmlStep nI nPats nQ θv w dens counts sign scalar fmb)
              (discrimDone nI) cap fun _ => ((1 : ℝ), (0 : ℝ))) i).2))
    ∧ discrimDone nI
        = fun ps ps' => maxAbsDiff nI (fun i => (ps i).1) (fun i => (ps' i).1)
            < (1e-3 : ℝ) := by
  obtain ⟨h1, h2, h3, h4, h5⟩ := outerLoop_spec step
    (fun s s' => maxAbsDiff nI (prim s) (prim s') < (1e-3 : ℝ)) cap s0
  exact ⟨h1, h2, h3, h4, h5, fun _ _ _ _ _ _ _ _ => rfl,
    fun _ _ _ _ _ _ _ _ _ => rfl, rfl⟩

/-- C5: each item's update in twopl_full is one call of the
derivative-free constrained bivariate optimizer with the discrimination
constrained to [0.25, 4] and the difficulty to [-4, 4], run
independently per item (this is `twoplStep`); consequently, given the
optimizer's bound contract, every discrimination value twopl_full
returns lies in [0.25, 4] and every difficulty value in [-4, 4], or the
item retains its initial values 1 and 0. -/
theorem twopl_full_parameter_bounds (nItems nPats nQ cap : ℕ)
    (θv w dist counts : ℕ → ℝ) (sign : ℕ → ℕ → ℝ)
    (slsqp : ((ℝ × ℝ) → ℝ) → (ℝ × ℝ) → (ℝ × ℝ) → (ℝ × ℝ) → ℝ × ℝ)
    (hopt : ∀ f g, (slsqp f g (0.25, 4) (-4, 4)).1 ∈ Set.Icc (0.25 : ℝ) 4
      ∧ (slsqp f g (0.25, 4) (-4, 4)).2 ∈ Set.Icc (-4 : ℝ) 4) :
    ∀ i, ((twopl_full nItems nPats nQ cap θv w dist counts sign slsqp).1 i
            ∈ Set.Icc (0.25 : ℝ) 4
          ∧ (twopl_full nItems nPats nQ cap θv w dist counts sign slsqp).2 i
            ∈ Set.Icc (-4 : ℝ) 4)
      ∨ ((twopl_full nItems nPats nQ cap θv w dist counts sign slsqp).1 i = 1
          ∧ (twopl_full nItems nPats nQ cap θv w dist counts sign slsqp).2 i = 0) := by
  intro i
  have hstep : ∀ ps : ℕ → ℝ × ℝ,
      (∀ j, ps j = ((1 : ℝ), (0 : ℝ))
        ∨ ((ps j).1 ∈ Set.Icc (0.25 : ℝ) 4 ∧ (ps j).2 ∈ Set.Icc (-4 : ℝ) 4)) →
      ∀ j, twoplStep nItems nPats nQ θv w dist counts sign slsqp ps j = ((1 : ℝ), (0 : ℝ))
        ∨ ((twoplStep nItems nPats nQ θv w dist counts sign slsqp ps j).1
              ∈ Set.Icc (0.25 : ℝ) 4
            ∧ (twoplStep nItems nPats nQ θv w dist counts sign slsqp ps j).2
              ∈ Set.Icc (-4 : ℝ) 4) := by
    intro ps hps j
    have hcase := innerLoop_param_cases nItems (twoplContrib θv sign)
      (dichotObjective nPats nQ θv w counts sign)
      (fun _ f g => slsqp f g (0.25, 4) (-4, 4)) (fun v => dist v.2) ps nItems j
    rcases hcase with hsame | ⟨f, g, heq⟩
    · have hps' := hps j
      unfold twoplStep innerPass
      rw [hsame]
      exact hps'
    · right
      unfold twoplStep innerPass
      rw [heq]
      exact hopt f g
  have hfinal := outerLoop_invariant
    (twoplStep nItems nPats nQ θv w dist counts sign slsqp) (discrimDone nItems)
    (fun ps => ∀ j, ps j = ((1 : ℝ), (0 : ℝ))
      ∨ ((ps j).1 ∈ Set.Icc (0.25 : ℝ) 4 ∧ (ps j).2 ∈ Set.Icc (-4 : ℝ) 4))
    hstep cap (fun _ => ((1 : ℝ), (0 : ℝ))) (fun _ => Or.inl rfl)
  rcases hfinal i with heq | hbox
  · right
    exact ⟨by rw [show (twopl_full nItems nPats nQ cap θv w dist counts sign slsqp).1 i
        = ((outerLoop (twoplStep nItems nPats nQ θv w dist counts sign slsqp)
            (discrimDone nItems) cap fun _ => ((1 : ℝ), (0 : ℝ))) i).1 from rfl, heq],
      by rw [show (twopl_full nItems nPats nQ cap θv w dist counts sign slsqp).2 i
        = ((outerLoop (twoplStep nItems nPats nQ θv w dist counts sign slsqp)
            (discrimDone nItems) cap fun _ => ((1 : ℝ), (0 : ℝ))) i).2 from rfl, heq]⟩
  · left
    exact hbox

/-- Witness for C5: a constant in-bounds optimizer on a one-item
configuration; the bound contract holds since (1, 0) lies in the box. -/
theorem twopl_full_parameter_bounds_witness :
    (∀ (f : (ℝ × ℝ) → ℝ) (g : ℝ × ℝ),
      ((fun (_ : (ℝ × ℝ) → ℝ) (_ : ℝ × ℝ) (_ : ℝ × ℝ) (_ : ℝ × ℝ) =>
          ((1 : ℝ), (0 : ℝ))) f g (0.25, 4) (-4, 4)).1 ∈ Set.Icc (0.25 : ℝ) 4
      ∧ ((fun (_ : (ℝ × ℝ) → ℝ) (_ : ℝ × ℝ) (_ : ℝ × ℝ) (_ : ℝ × ℝ) =>
          ((1 : ℝ), (0 : ℝ))) f g (0.25, 4) (-4, 4)).2 ∈ Set.Icc (-4 : ℝ) 4)
    ∧ ∀ i, ((twopl_full 1 1 1 1 (fun _ => 1) (fun _ => 1) (fun _ => 1) (fun _ => 1)
          (fun _ _ => 1) (fun _ _ _ _ => ((1 : ℝ), (0 : ℝ)))).1 i ∈ Set.Icc (0.25 : ℝ) 4
        ∧ (twopl_full 1 1 1 1 (fun _ => 1) (fun _ => 1) (fun _ => 1) (fun _ => 1)
          (fun _ _ => 1) (fun _ _ _ _ => ((1 : ℝ), (0 : ℝ)))).2 i ∈ Set.Icc (-4 : ℝ) 4)
      ∨ ((twopl_full 1 1 1 1 (fun _ => 1) (fun _ => 1) (fun _ => 1) (fun _ => 1)
          (fun _ _ => 1) (fun _ _ _ _ => ((1 : ℝ), (0 : ℝ)))).1 i = 1
        ∧ (twopl_full 1 1 1 1 (fun _ => 1) (fun _ => 1) (fun _ => 1) (fun _ => 1)
          (fun _ _ => 1) (fun _ _ _ _ => ((1 : ℝ), (0 : ℝ)))).2 i = 0) := by
  have hopt : ∀ (f : (ℝ × ℝ) → ℝ) (g : ℝ × ℝ),
      ((fun (_ : (ℝ × ℝ) → ℝ) (_ : ℝ × ℝ) (_ : ℝ × ℝ) (_ : ℝ × ℝ) =>
          ((1 : ℝ), (0 : ℝ))) f g (0.25, 4) (-4, 4)).1 ∈ Set.Icc (0.25 : ℝ) 4
      ∧ ((fun (_ : (ℝ × ℝ) → ℝ) (_ : ℝ × ℝ) (_ : ℝ × ℝ) (_ : ℝ × ℝ) =>
          ((1 : ℝ), (0 : ℝ))) f g (0.25, 4) (-4, 4)).2 ∈ Set.Icc (-4 : ℝ) 4 := by
    intro f g
    refine ⟨?_, ?_⟩ <;> norm_num [Set.mem_Icc]
  exact ⟨hopt, twopl_full_parameter_bounds 1 1 1 1 _ _ _ _ _ _ hopt⟩

/-- C10: the Rasch estimators are the 1PL estimators specialized to a
fixed discrimination: rasch_full returns exactly the difficulty
component of onepl_full at the supplied alpha, onepl_full returns a
supplied alpha unchanged, and rasch_mml returns exactly the difficulty
component of onepl_mml at the supplied alpha, which onepl_mml also
returns unchanged. -/
theorem rasch_estimators_are_onepl_specializations
    (nItems nPats nQ cap : ℕ) (θv w dist dens counts : ℕ → ℝ)
    (sign : ℕ → ℕ → ℝ) (scalar : ℕ → ℝ)
    (fmb fmbA : (ℝ → ℝ) → ℝ → ℝ → ℝ) (d : ℝ) :
    rasch_full nItems nPats nQ cap θv w dist counts sign fmb fmbA d
      = (onepl_full nItems nPats nQ cap θv w dist counts sign fmb fmbA (some d)).2
    ∧ (onepl_full nItems nPats nQ cap θv w dist counts sign fmb fmbA (some d)).1 = d
    ∧ rasch_mml nItems nPats nQ θv w dens counts sign scalar fmb fmbA d
      = (onepl_mml nItems nPats nQ θv w dens counts sign scalar fmb fmbA (some d)).2
    ∧ (onepl_mml nItems nPats nQ θv w dens counts sign scalar fmb fmbA (some d)).1
      = d :=
  ⟨rfl, rfl, rfl, rfl⟩

theorem gauss_pos (θv : ℝ) : 0 < gauss θv := by
  unfold gauss
  have h2π : (0 : ℝ) < Real.sqrt (2 * Real.pi) :=
    Real.sqrt_pos.mpr (by positivity)
  positivity

theorem logistic_term_strictAnti (a c : ℝ) (ha : 0 < a) :
    StrictAnti fun b : ℝ => 1 / (1 + Real.exp (a * (b - c))) := by
  intro b1 b2 hb
  have h1 : Real.exp (a * (b1 - c)) < Real.exp (a * (b2 - c)) := by
    apply Real.exp_lt_exp.mpr
    nlinarith
  have hp1 : (0 : ℝ) < 1 + Real.exp (a * (b1 - c)) := by positivity
  exact one_div_lt_one_div_of_lt hp1 (by linarith)

theorem weighted_logistic_sum_strictAnti (q : ℕ) (x w dex : ℕ → ℝ) (disc : ℝ)
    (hq : 0 < q) (hd : 0 < disc) (hw : ∀ i, i < q → 0 < w i)
    (hdex : ∀ i, i < q → 0 < dex i) :
    StrictAnti fun e : ℝ => ∑ i in Finset.range q,
      w i * (1 / (1 + Real.exp (disc * (e - x i))) * dex i) := by
  intro b1 b2 hb
  apply Finset.sum_lt_sum_of_nonempty
  · exact Finset.nonempty_range_iff.mpr (by omega)
  · intro i hi
    have hiq := Finset.mem_range.mp hi
    have hterm := logistic_term_strictAnti disc (x i) hd hb
    exact mul_lt_mul_of_pos_left
      (mul_lt_mul_of_pos_right hterm (hdex i hiq)) (hw i hiq)

theorem raschModelProb_eq (q : ℕ) (x w : ℕ → ℝ) (disc e : ℝ) :
    raschModelProb q x w disc e
      = ∑ i in Finset.range q,
          w i * (1 / (1 + Real.exp (disc * (e - x i))) * gauss (x i)) := by
  unfold raschModelProb raschQuadFunction irt_evaluation
  refine Finset.sum_congr rfl fun i _ => ?_
  rw [show -disc * (x i - e) = disc * (e - x i) by ring]

/-- C7: the separable difficulty solvers bypass the marginal-likelihood
objective.  rasch_separate's per-item objective is the observed
endorsement proportion minus the model-implied endorsement probability
(the quadrature integral of the logistic response function weighted by
the standard-normal density), and at the root the two are equal
(conjunct 1); that probability is strictly monotone (antitone) in the
difficulty, so the root-find is monotone and the solution unique
(conjuncts 2–3).  The `_mml_abstract` difficulty step used by onepl_mml
and twopl_mml minimizes the squared residual of the same
probability-matching equation over the bounded interval, so whenever the
equation has a solution in the interval the minimizer satisfies it
exactly (conjunct 4), and the same monotonicity holds for its
model-implied probability under a positive density (conjunct 5). -/
theorem separable_difficulty_probability_matching (q : ℕ) (x w dens : ℕ → ℝ)
    (scalar disc : ℕ → ℝ) (k : ℕ)
    (brentq fmb : (ℝ → ℝ) → ℝ → ℝ → ℝ)
    (hq : 0 < q) (hw : ∀ i, i < q → 0 < w i) (hd : 0 < disc k)
    (hroot : raschSepObjective q x w (scalar k) (disc k)
      (rasch_separate q x w scalar disc brentq k) = 0)
    (hmin : ∀ y ∈ Set.Icc (-6 : ℝ) 6,
      mmlAbstractObjective q x w dens (scalar k) (disc k)
        (mml_abstract q x w dens scalar disc fmb k)
      ≤ mmlAbstractObjective q x w dens (scalar k) (disc k) y)
    (hex : ∃ y ∈ Set.Icc (-6 : ℝ) 6,
      mmlModelProb q x w dens (disc k) y = scalar k) :
    raschModelProb q x w (disc k) (rasch_separate q x w scalar disc brentq k)
      = scalar k
    ∧ StrictAnti (raschModelProb q x w (disc k))
    ∧ (∀ y, raschModelProb q x w (disc k) y = scalar k
        → y = rasch_separate q x w scalar disc brentq k)
    ∧ mmlModelProb q x w dens (disc k) (mml_abstract q x w dens scalar disc fmb k)
      = scalar k
    ∧ ((∀ i, i < q → 0 < dens i) → StrictAnti (mmlModelProb q x w dens (disc k))) := by
  have hmatch : raschModelProb q x w (disc k)
      (rasch_separate q x w scalar disc brentq k) = scalar k := by
    unfold raschSepObjective at hroot
    linarith
  have hanti : StrictAnti (raschModelProb q x w (disc k)) := by
    have hrw : raschModelProb q x w (disc k) = fun e => ∑ i in Finset.range q,
        w i * (1 / (1 + Real.exp (disc k * (e - x i))) * gauss (x i)) :=
      funext fun e => raschModelProb_eq q x w (disc k) e
    rw [hrw]
    exact weighted_logistic_sum_strictAnti q x w (fun i => gauss (x i)) (disc k)
      hq hd hw (fun i _ => gauss_pos (x i))
  have hmml : mmlModelProb q x w dens (disc k)
      (mml_abstract q x w dens scalar disc fmb k) = scalar k := by
    obtain ⟨y, hy, hyeq⟩ := hex
    have hzero : mmlAbstractObjective q x w dens (scalar k) (disc k) y = 0 := by
      unfold mmlAbstractObjective
      rw [hyeq]
      ring
    have hle := hmin y hy
    rw [hzero] at hle
    have hge : 0 ≤ mmlAbstractObjective q x w dens (scalar k) (disc k)
        (mml_abstract q x w dens scalar disc fmb k) := by
      unfold mmlAbstractObjective
      positivity
    have heq0 : mmlAbstractObjective q x w dens (scalar k) (disc k)
        (mml_abstract q x w dens scalar disc fmb k) = 0 := le_antisymm hle hge
    unfold mmlAbstractObjective at heq0
    have := pow_eq_zero_iff (n := 2) (by norm_num) |>.mp heq0
    linarith [sub_eq_zero.mp this]
  refine ⟨hmatch, hanti, ?_, hmml, ?_⟩
  · intro y hy
    exact hanti.injective (by rw [hy, hmatch])
  · intro hdens
    exact weighted_logistic_sum_strictAnti q x w dens (disc k) hq hd hw hdens

/-- Witness for C7: a one-node quadrature rule at the origin, unit
weight and discrimination, density sampled as the normal density at the
origin, observed proportion `gauss 0 / 2`; the root finder and the
bounded minimizer both return 0, which solves the probability-matching
equation exactly. -/
theorem separable_difficulty_probability_matching_witness :
    (0 : ℕ) < 1
    ∧ (∀ i, i < 1 → (0 : ℝ) < (fun _ : ℕ => (1 : ℝ)) i)
    ∧ (0 : ℝ) < (fun _ : ℕ => (1 : ℝ)) 0
    ∧ raschSepObjective 1 (fun _ => (0 : ℝ)) (fun _ => (1 : ℝ))
        ((fun _ : ℕ => gauss 0 / 2) 0) ((fun _ : ℕ => (1 : ℝ)) 0)
        (rasch_separate 1 (fun _ => (0 : ℝ)) (fun _ => (1 : ℝ))
          (fun _ : ℕ => gauss 0 / 2) (fun _ : ℕ => (1 : ℝ)) (fun _ _ _ => 0) 0) = 0
    ∧ (∀ y ∈ Set.Icc (-6 : ℝ) 6,
        mmlAbstractObjective 1 (fun _ => (0 : ℝ)) (fun _ => (1 : ℝ))
          (fun _ => gauss 0) ((fun _ : ℕ => gauss 0 / 2) 0) ((fun _ : ℕ => (1 : ℝ)) 0)
          (mml_abstract 1 (fun _ => (0 : ℝ)) (fun _ => (1 : ℝ)) (fun _ => gauss 0)
            (fun _ : ℕ => gauss 0 / 2) (fun _ : ℕ => (1 : ℝ)) (fun _ _ _ => 0) 0)
        ≤ mmlAbstractObjective 1 (fun _ => (0 : ℝ)) (fun _ => (1 : ℝ))
          (fun _ => gauss 0) ((fun _ : ℕ => gauss 0 / 2) 0) ((fun _ : ℕ => (1 : ℝ)) 0) y)
    ∧ (∃ y ∈ Set.Icc (-6 : ℝ) 6,
        mmlModelProb 1 (fun _ => (0 : ℝ)) (fun _ => (1 : ℝ)) (fun _ => gauss 0)
          ((fun _ : ℕ => (1 : ℝ)) 0) y = (fun _ : ℕ => gauss 0 / 2) 0)
    ∧ (raschModelProb 1 (fun _ => (0 : ℝ)) (fun _ => (1 : ℝ)) ((fun _ : ℕ => (1 : ℝ)) 0)
          (rasch_separate 1 (fun _ => (0 : ℝ)) (fun _ => (1 : ℝ))
            (fun _ : ℕ => gauss 0 / 2) (fun _ : ℕ => (1 : ℝ)) (fun _ _ _ => 0) 0)
          = (fun _ : ℕ => gauss 0 / 2) 0
      ∧ StrictAnti (raschModelProb 1 (fun _ => (0 : ℝ)) (fun _ => (1 : ℝ))
          ((fun _ : ℕ => (1 : ℝ)) 0))
      ∧ (∀ y, raschModelProb 1 (fun _ => (0 : ℝ)) (fun _ => (1 : ℝ))
            ((fun _ : ℕ => (1 : ℝ)) 0) y = (fun _ : ℕ => gauss 0 / 2) 0
          → y = rasch_separate 1 (fun _ => (0 : ℝ)) (fun _ => (1 : ℝ))
              (fun _ : ℕ => gauss 0 / 2) (fun _ : ℕ => (1 : ℝ)) (fun _ _ _ => 0) 0)
      ∧ mmlModelProb 1 (fun _ => (0 : ℝ)) (fun _ => (1 : ℝ)) (fun _ => gauss 0)
          ((fun _ : ℕ => (1 : ℝ)) 0)
          (mml_abstract 1 (fun _ => (0 : ℝ)) (fun _ => (1 : ℝ)) (fun _ => gauss 0)
            (fun _ : ℕ => gauss 0 / 2) (fun _ : ℕ => (1 : ℝ)) (fun _ _ _ => 0) 0)
          = (fun _ : ℕ => gauss 0 / 2) 0
      ∧ ((∀ i, i < 1 → (0 : ℝ) < (fun _ : ℕ => gauss 0) i)
          → StrictAnti (mmlModelProb 1 (fun _ => (0 : ℝ)) (fun _ => (1 : ℝ))
              (fun _ => gauss 0) ((fun _ : ℕ => (1 : ℝ)) 0)))) := by
  have hq : (0 : ℕ) < 1 := by norm_num
  have hw : ∀ i, i < 1 → (0 : ℝ) < (fun _ : ℕ => (1 : ℝ)) i := fun i _ => by norm_num
  have hd : (0 : ℝ) < (fun _ : ℕ => (1 : ℝ)) 0 := by norm_num
  have hroot : raschSepObjective 1 (fun _ => (0 : ℝ)) (fun _ => (1 : ℝ))
      ((fun _ : ℕ => gauss 0 / 2) 0) ((fun _ : ℕ => (1 : ℝ)) 0)
      (rasch_separate 1 (fun _ => (0 : ℝ)) (fun _ => (1 : ℝ))
        (fun _ : ℕ => gauss 0 / 2) (fun _ : ℕ => (1 : ℝ)) (fun _ _ _ => 0) 0) = 0 := by
    show raschSepObjective 1 (fun _ => (0 : ℝ)) (fun _ => (1 : ℝ)) (gauss 0 / 2) 1 0 = 0
    unfold raschSepObjective raschModelProb raschQuadFunction irt_evaluation
    rw [Finset.sum_range_one]
    norm_num [Real.exp_zero]
    ring
  have hobj0 : mmlAbstractObjective 1 (fun _ => (0 : ℝ)) (fun _ => (1 : ℝ))
      (fun _ => gauss 0) ((fun _ : ℕ => gauss 0 / 2) 0) ((fun _ : ℕ => (1 : ℝ)) 0)
      (mml_abstract 1 (fun _ => (0 : ℝ)) (fun _ => (1 : ℝ)) (fun _ => gauss 0)
        (fun _ : ℕ => gauss 0 / 2) (fun _ : ℕ => (1 : ℝ)) (fun _ _ _ => 0) 0) = 0 := by
    show mmlAbstractObjective 1 (fun _ => (0 : ℝ)) (fun _ => (1 : ℝ))
      (fun _ => gauss 0) (gauss 0 / 2) 1 0 = 0
    unfold mmlAbstractObjective mmlModelProb
    rw [Finset.sum_range_one]
    norm_num [Real.exp_zero]
    ring_nf
  have hmin : ∀ y ∈ Set.Icc (-6 : ℝ) 6,
      mmlAbstractObjective 1 (fun _ => (0 : ℝ)) (fun _ => (1 : ℝ))
        (fun _ => gauss 0) ((fun _ : ℕ => gauss 0 / 2) 0) ((fun _ : ℕ => (1 : ℝ)) 0)
        (mml_abstract 1 (fun _ => (0 : ℝ)) (fun _ => (1 : ℝ)) (fun _ => gauss 0)
          (fun _ : ℕ => gauss 0 / 2) (fun _ : ℕ => (1 : ℝ)) (fun _ _ _ => 0) 0)
      ≤ mmlAbstractObjective 1 (fun _ => (0 : ℝ)) (fun _ => (1 : ℝ))
        (fun _ => gauss 0) ((fun _ : ℕ => gauss 0 / 2) 0) ((fun _ : ℕ => (1 : ℝ)) 0) y := by
    intro y _
    rw [hobj0]
    unfold mmlAbstractObjective
    positivity
  have hex : ∃ y ∈ Set.Icc (-6 : ℝ) 6,
      mmlModelProb 1 (fun _ => (0 : ℝ)) (fun _ => (1 : ℝ)) (fun _ => gauss 0)
        ((fun _ : ℕ => (1 : ℝ)) 0) y = (fun _ : ℕ => gauss 0 / 2) 0 := by
    refine ⟨0, by norm_num, ?_⟩
    unfold mmlModelProb
    rw [Finset.sum_range_one]
    norm_num [Real.exp_zero]
    ring
  exact ⟨hq, hw, hd, hroot, hmin, hex,
    separable_difficulty_probability_matching 1 (fun _ => (0 : ℝ)) (fun _ => (1 : ℝ))
      (fun _ => gauss 0) (fun _ : ℕ => gauss 0 / 2) (fun _ : ℕ => (1 : ℝ)) 0
      (fun _ _ _ => 0) (fun _ _ _ => 0) hq hw hd hroot hmin hex⟩

/-- C6: the graded-response estimators (grm_mml and grm_separate, whose
per-item solve stage is `grmItemStage`) solve each item per outer pass
in two stages: the outer search `fminbound(_, 0.2, 5.0)` runs over the
item's single discrimination value only — its argument is a function of
one real variable, and the item state it produces is fully determined by
the searched discrimination (conjunct 4) — while inside the objective
the thresholds evaluated at each trial discrimination are the direct
solution of the category-probability-matching integral equations, never
free variables of the search (conjuncts 2–3); the searched
discrimination stays in the bound box (conjunct 1). -/
theorem grm_two_stage_univariate_search (solveIE : ℝ → List ℝ)
    (obj : ℝ → List ℝ → ℝ) (fmb : (ℝ → ℝ) → ℝ → ℝ → ℝ)
    (q : ℕ) (x w dens : ℕ → ℝ) (ratios : List ℝ)
    (hfmb : ∀ (f : ℝ → ℝ) (a b : ℝ), a ≤ b → fmb f a b ∈ Set.Icc a b)
    (hsolve : ∀ a, MatchesCategoryProbs q x w dens ratios a (solveIE a)) :
    (grmItemStage solveIE obj fmb).1 ∈ Set.Icc (0.2 : ℝ) 5
    ∧ (grmItemStage solveIE obj fmb).2 = solveIE (grmItemStage solveIE obj fmb).1
    ∧ MatchesCategoryProbs q x w dens ratios (grmItemStage solveIE obj fmb).1
        (grmItemStage solveIE obj fmb).2
    ∧ grmItemStage solveIE obj fmb
        = (fmb (fun estimate => obj estimate (solveIE estimate)) 0.2 5,
           solveIE (fmb (fun estimate => obj estimate (solveIE estimate)) 0.2 5)) := by
  refine ⟨hfmb _ 0.2 5 (by norm_num), rfl, ?_, rfl⟩
  exact hsolve ((grmItemStage solveIE obj fmb).1)

/-- Witness for C6: a left-endpoint optimizer and the constant threshold
solver returning the origin, whose category-probability equation holds
at ratio 1/2 for every trial discrimination. -/
theorem grm_two_stage_univariate_search_witness :
    (∀ (f : ℝ → ℝ) (a b : ℝ), a ≤ b →
      (fun (_ : ℝ → ℝ) (a' _ : ℝ) => a') f a b ∈ Set.Icc a b)
    ∧ (∀ a, MatchesCategoryProbs 1 (fun _ => (0 : ℝ)) (fun _ => (1 : ℝ))
        (fun _ => (1 : ℝ)) [(1 / 2 : ℝ)] a ((fun _ : ℝ => [(0 : ℝ)]) a))
    ∧ ((grmItemStage (fun _ : ℝ => [(0 : ℝ)]) (fun _ _ => (0 : ℝ))
          (fun (_ : ℝ → ℝ) (a' _ : ℝ) => a')).1 ∈ Set.Icc (0.2 : ℝ) 5
      ∧ (grmItemStage (fun _ : ℝ => [(0 : ℝ)]) (fun _ _ => (0 : ℝ))
          (fun (_ : ℝ → ℝ) (a' _ : ℝ) => a')).2
        = (fun _ : ℝ => [(0 : ℝ)])
            ((grmItemStage (fun _ : ℝ => [(0 : ℝ)]) (fun _ _ => (0 : ℝ))
              (fun (_ : ℝ → ℝ) (a' _ : ℝ) => a')).1)
      ∧ MatchesCategoryProbs 1 (fun _ => (0 : ℝ)) (fun _ => (1 : ℝ))
          (fun _ => (1 : ℝ)) [(1 / 2 : ℝ)]
          ((grmItemStage (fun _ : ℝ => [(0 : ℝ)]) (fun _ _ => (0 : ℝ))
            (fun (_ : ℝ → ℝ) (a' _ : ℝ) => a')).1)
          ((grmItemStage (fun _ : ℝ => [(0 : ℝ)]) (fun _ _ => (0 : ℝ))
            (fun (_ : ℝ → ℝ) (a' _ : ℝ) => a')).2)
      ∧ grmItemStage (fun _ : ℝ => [(0 : ℝ)]) (fun _ _ => (0 : ℝ))
          (fun (_ : ℝ → ℝ) (a' _ : ℝ) => a')
        = ((fun (_ : ℝ → ℝ) (a' _ : ℝ) => a')
            (fun estimate => (fun _ _ => (0 : ℝ)) estimate
              ((fun _ : ℝ => [(0 : ℝ)]) estimate)) 0.2 5,
          (fun _ : ℝ => [(0 : ℝ)])
            ((fun (_ : ℝ → ℝ) (a' _ : ℝ) => a')
              (fun estimate => (fun _ _ => (0 : ℝ)) estimate
                ((fun _ : ℝ => [(0 : ℝ)]) estimate)) 0.2 5))) := by
  have hfmb : ∀ (f : ℝ → ℝ) (a b : ℝ), a ≤ b →
      (fun (_ : ℝ → ℝ) (a' _ : ℝ) => a') f a b ∈ Set.Icc a b :=
    fun f a b h => ⟨le_refl a, h⟩
  have hsolve : ∀ a, MatchesCategoryProbs 1 (fun _ => (0 : ℝ)) (fun _ => (1 : ℝ))
      (fun _ => (1 : ℝ)) [(1 / 2 : ℝ)] a ((fun _ : ℝ => [(0 : ℝ)]) a) := by
    intro a
    refine ⟨rfl, ?_⟩
    intro j hj
    have hj0 : j = 0 := by simpa using hj
    subst hj0
    rw [Finset.sum_range_one]
    norm_num [Real.exp_zero]
  exact ⟨hfmb, hsolve,
    grm_two_stage_univariate_search (fun _ : ℝ => [(0 : ℝ)]) (fun _ _ => (0 : ℝ))
      (fun (_ : ℝ → ℝ) (a' _ : ℝ) => a') 1 (fun _ => (0 : ℝ)) (fun _ => (1 : ℝ))
      (fun _ => (1 : ℝ)) [(1 / 2 : ℝ)] hfmb hsolve⟩

theorem sessionRun_spec {I O W : Type} (f : I → O) :
    ∀ (inputs : List I) (amb : W),
      (sessionRun f inputs amb).1 = inputs.map f
      ∧ (sessionRun f inputs amb).2 = amb := by
  intro inputs
  induction inputs with
  | nil => intro amb; exact ⟨rfl, rfl⟩
  | cons i is ih =>
    intro amb
    obtain ⟨h1, h2⟩ := ih amb
    refine ⟨?_, ?_⟩
    · show f i :: (sessionRun f is amb).1 = f i :: is.map f
      rw [h1]
    · show (sessionRun f is amb).2 = amb
      exact h2

/-- C9: the estimation functions are deterministic and free of
cross-call shared mutable state: running a list of twopl_full
estimations through a session, each call's output is exactly the pure
function of its own dataset (so two invocations on the same data give
identical outputs, and no estimation changes the result of a later
one — conjunct 1), the ambient session state is left untouched
(conjunct 2), and the outputs do not depend on the ambient state the
session started from (conjunct 3).  All mutable state of a call —
parameter arrays and the partial-integral accumulator — is created
fresh inside `twopl_full`/`twopl_full_dataset`. -/
theorem estimation_deterministic_no_shared_state {W : Type}
    (nQ cap : ℕ) (θv w dist : ℕ → ℝ)
    (slsqp : ((ℝ × ℝ) → ℝ) → (ℝ × ℝ) → (ℝ × ℝ) → (ℝ × ℝ) → ℝ × ℝ)
    (amb amb' : W) (datasets : List (List (List Bool))) :
    (sessionRun (fun ds => twopl_full_dataset ds nQ cap θv w dist slsqp)
        datasets amb).1
      = datasets.map (fun ds => twopl_full_dataset ds nQ cap θv w dist slsqp)
    ∧ (sessionRun (fun ds => twopl_full_dataset ds nQ cap θv w dist slsqp)
        datasets amb).2 = amb
    ∧ (sessionRun (fun ds => twopl_full_dataset ds nQ cap θv w dist slsqp)
        datasets amb).1
      = (sessionRun (fun ds => twopl_full_dataset ds nQ cap θv w dist slsqp)
        datasets amb').1 := by
  obtain ⟨h1, h2⟩ := sessionRun_spec
    (fun ds => twopl_full_dataset ds nQ cap θv w dist slsqp) datasets amb
  obtain ⟨h1', _⟩ := sessionRun_spec
    (fun ds => twopl_full_dataset ds nQ cap θv w dist slsqp) datasets amb'
  exact ⟨h1, h2, by rw [h1, h1']⟩

theorem padRow_length (width : ℕ) (row : List ℝ) (h : row.length ≤ width) :
    (padRow width row).length = width := by
  simp [padRow]
  omega

theorem padRow_getElem?_lt (width : ℕ) (row : List ℝ) (j : ℕ) (hj : j < row.length) :
    (padRow width row)[j]? = some (some (row.getD j 0)) := by
  unfold padRow
  rw [List.getElem?_append_left (by simpa using hj), List.getElem?_map,
    List.getElem?_eq_getElem hj, List.getD_eq_getElem row 0 hj]
  rfl

theorem padRow_getElem?_ge (width : ℕ) (row : List ℝ) (j : ℕ)
    (hj1 : row.length ≤ j) (hj2 : j < width) :
    (padRow width row)[j]? = some none := by
  unfold padRow
  rw [List.getElem?_append_right (by simpa using hj1), List.getElem?_replicate,
    if_pos (by simp; omega)]

theorem le_foldr_max (l : List ℕ) : ∀ a ∈ l, a ≤ l.foldr max 0 := by
  induction l with
  | nil =>
    intro a ha
    cases ha
  | cons b bs ih =>
    intro a ha
    rcases List.mem_cons.mp ha with rfl | h
    · exact le_max_left _ _
    · exact le_trans (ih a h) (le_max_right _ _)

theorem take_sum_le (counts : List ℕ) (m : ℕ) : (counts.take m).sum ≤ counts.sum := by
  have := List.sum_take_add_sum_drop counts m
  omega

theorem sum_take_succ_getD (counts : List ℕ) (i : ℕ) (hi : i < counts.length) :
    (counts.take (i + 1)).sum = (counts.take i).sum + counts.getD i 0 := by
  rw [List.sum_take_succ counts i hi, List.getD_eq_getElem counts 0 hi]

theorem itemSlice_length (flat : List ℝ) (counts : List ℕ) (i : ℕ)
    (hi : i < counts.length) (hlen : flat.length = counts.sum) :
    (itemSlice flat counts i).length = counts.getD i 0 - 1 := by
  unfold itemSlice
  rw [List.length_take, List.length_drop, hlen]
  have h1 := sum_take_succ_getD counts i hi
  have h2 := take_sum_le counts (i + 1)
  omega

theorem itemSlice_getElem? (flat : List ℝ) (counts : List ℕ) (i j : ℕ)
    (hj : j < counts.getD i 0 - 1) :
    (itemSlice flat counts i)[j]? = flat[(counts.take i).sum + 1 + j]? := by
  unfold itemSlice
  rw [List.getElem?_take, if_pos hj, List.getElem?_drop]

theorem grmOutputBetas_row (flat : List ℝ) (counts : List ℕ) (i : ℕ)
    (hi : i < counts.length) :
    (grmOutputBetas flat counts).getD i []
      = padRow (counts.foldr max 0 - 1) (itemSlice flat counts i) := by
  unfold grmOutputBetas
  rw [List.getD_eq_getElem?_getD, List.getElem?_map, List.getElem?_range hi]
  rfl

theorem pcmOutputBetas_row (rows : List (List ℝ)) (counts : List ℕ) (i : ℕ)
    (hi : i < counts.length) :
    (pcmOutputBetas rows counts).getD i []
      = padRow (counts.foldr max 0 - 1) ((rows.getD i []).take (counts.getD i 0 - 1)) := by
  unfold pcmOutputBetas
  rw [List.getD_eq_getElem?_getD, List.getElem?_map, List.getElem?_range hi]
  rfl

theorem getD_mem_of_lt (counts : List ℕ) (i : ℕ) (hi : i < counts.length) :
    counts.getD i 0 ∈ counts := by
  rw [List.getD_eq_getElem counts 0 hi]
  exact List.getElem_mem hi

/-- C8: for polytomous inputs with differing category counts, the
threshold array returned by grm_mml (`grmOutputBetas`, built from the
linearized difficulty vector `flat` with per-item category counts) and
the threshold array of pcm_mml (`pcmOutputBetas`, built from the
per-item estimated values) have one row per item (conjuncts 1–2) of
`item_counts.max() - 1` slots each (conjuncts 3–4); row `i`'s leading
`counts[i] - 1` slots hold exactly item `i`'s own estimates — for grm,
the elements of item `i`'s slice of the linearized vector — (conjunct
5), and every trailing slot holds the not-applicable marker, never
another item's data (conjunct 6). -/
theorem threshold_array_nan_padding (flat : List ℝ) (counts : List ℕ)
    (rows : List (List ℝ)) (i j : ℕ)
    (hi : i < counts.length)
    (hlen : flat.length = counts.sum)
    (hrows : (rows.getD i []).length = counts.getD i 0 - 1) :
    (grmOutputBetas flat counts).length = counts.length
    ∧ (pcmOutputBetas rows counts).length = counts.length
    ∧ ((grmOutputBetas flat counts).getD i []).length = counts.foldr max 0 - 1
    ∧ ((pcmOutputBetas rows counts).getD i []).length = counts.foldr max 0 - 1
    ∧ (j < counts.getD i 0 - 1 →
        ((grmOutputBetas flat counts).getD i [])[j]?
          = some (some (flat.getD ((counts.take i).sum + 1 + j) 0))
        ∧ ((pcmOutputBetas rows counts).getD i [])[j]?
          = some (some ((rows.getD i []).getD j 0)))
    ∧ (counts.getD i 0 - 1 ≤ j → j < counts.foldr max 0 - 1 →
        ((grmOutputBetas flat counts).getD i [])[j]? = some none
        ∧ ((pcmOutputBetas rows counts).getD i [])[j]? = some none) := by
  have hcmax : counts.getD i 0 ≤ counts.foldr max 0 :=
    le_foldr_max counts _ (getD_mem_of_lt counts i hi)
  have hslice := itemSlice_length flat counts i hi hlen
  have hgrow := grmOutputBetas_row flat counts i hi
  have hprow := pcmOutputBetas_row rows counts i hi
  have hptake : ((rows.getD i []).take (counts.getD i 0 - 1)).length
      = counts.getD i 0 - 1 := by
    rw [List.length_take, hrows]
    omega
  refine ⟨by simp [grmOutputBetas], by simp [pcmOutputBetas], ?_, ?_, ?_, ?_⟩
  · rw [hgrow, padRow_length _ _ (by omega)]
  · rw [hprow, padRow_length _ _ (by omega)]
  · intro hj
    constructor
    · rw [hgrow, padRow_getElem?_lt _ _ _ (by omega)]
      have hidx : (counts.take i).sum + 1 + j < flat.length := by
        have h1 := sum_take_succ_getD counts i hi
        have h2 := take_sum_le counts (i + 1)
        omega
      rw [List.getD_eq_getElem _ 0 (by omega), List.getD_eq_getElem flat 0 hidx]
      congr 1
      have hsliceElem := itemSlice_getElem? flat counts i j hj
      rw [List.getElem?_eq_getElem (by omega), List.getElem?_eq_getElem hidx]
        at hsliceElem
      exact congrArg Option.some (Option.some.inj hsliceElem)
    · rw [hprow, padRow_getElem?_lt _ _ _ (by omega)]
      have htakeElem : ((rows.getD i []).take (counts.getD i 0 - 1)).getD j 0
          = (rows.getD i []).getD j 0 := by
        rw [List.getD_eq_getElem?_getD, List.getElem?_take, if_pos hj]
        exact (List.getD_eq_getElem?_getD _ _ _).symm
      rw [htakeElem]
  · intro hj1 hj2
    constructor
    · rw [hgrow, padRow_getElem?_ge _ _ _ (by omega) (by omega)]
    · rw [hprow, padRow_getElem?_ge _ _ _ (by omega) (by omega)]

/-- Witness for C8: two items with 3 and 2 categories; the linearized
vector holds item 0's reference slot and two thresholds, then item 1's
reference slot and one threshold; slot (0, 1) is item 0's second
threshold. -/
theorem threshold_array_nan_padding_witness :
    (0 : ℕ) < [3, 2].length
    ∧ [(10 : ℝ), 11, 12, 20, 21].length = [3, 2].sum
    ∧ ([[(1 : ℝ), 2], [(3 : ℝ)]].getD 0 []).length = [3, 2].getD 0 0 - 1
    ∧ ((grmOutputBetas [(10 : ℝ), 11, 12, 20, 21] [3, 2]).length = [3, 2].length
      ∧ (pcmOutputBetas [[(1 : ℝ), 2], [(3 : ℝ)]] [3, 2]).length = [3, 2].length
      ∧ ((grmOutputBetas [(10 : ℝ), 11, 12, 20, 21] [3, 2]).getD 0 []).length
          = [3, 2].foldr max 0 - 1
      ∧ ((pcmOutputBetas [[(1 : ℝ), 2], [(3 : ℝ)]] [3, 2]).getD 0 []).length
          = [3, 2].foldr max 0 - 1
      ∧ ((1 : ℕ) < [3, 2].getD 0 0 - 1 →
          ((grmOutputBetas [(10 : ℝ), 11, 12, 20, 21] [3, 2]).getD 0 [])[1]?
            = some (some ([(10 : ℝ), 11, 12, 20, 21].getD (([3, 2].take 0).sum + 1 + 1) 0))
          ∧ ((pcmOutputBetas [[(1 : ℝ), 2], [(3 : ℝ)]] [3, 2]).getD 0 [])[1]?
            = some (some (([[(1 : ℝ), 2], [(3 : ℝ)]].getD 0 []).getD 1 0)))
      ∧ ([3, 2].getD 0 0 - 1 ≤ (1 : ℕ) → (1 : ℕ) < [3, 2].foldr max 0 - 1 →
          ((grmOutputBetas [(10 : ℝ), 11, 12, 20, 21] [3, 2]).getD 0 [])[1]? = some none
          ∧ ((pcmOutputBetas [[(1 : ℝ), 2], [(3 : ℝ)]] [3, 2]).getD 0 [])[1]?
            = some none)) := by
  have hi : (0 : ℕ) < [3, 2].length := by norm_num
  have hlen : [(10 : ℝ), 11, 12, 20, 21].length = [3, 2].sum := rfl
  have hrows : ([[(1 : ℝ), 2], [(3 : ℝ)]].getD 0 []).length = [3, 2].getD 0 0 - 1 := rfl
  exact ⟨hi, hlen, hrows,
    threshold_array_nan_padding [(10 : ℝ), 11, 12, 20, 21] [3, 2]
      [[(1 : ℝ), 2], [(3 : ℝ)]] 0 1 hi hlen hrows⟩

end Girth
